import Mathlib

/-
Verification development for the job recommendation engine (ai.py).

The embedding models the three core operations of the source:
  calculate_match_score   (ai.py lines 58-83)
  recommend_jobs_for_new_candidate (ai.py lines 84-144)
  train_model             (ai.py lines 32-56)

Candidate and job records are MongoDB documents in the source: a field may
be missing (modelled with Option; the source reads them with .get and a
default) and numeric fields may hold either a number or a string (modelled
with PyVal), since float(...) is applied to whatever is stored.
Python float arithmetic is modelled with the rationals; Python round(x, 2)
is modelled through Mathlib round (half-integer ties differ between
conventions only at exact half-cent ties, which none of the claims reach,
and Python's binary floats land on the same side at the inputs used here).
The scikit-learn classifier pipeline (TfidfVectorizer.transform,
predict_proba, argsort, inverse_transform) is abstracted into MLModel:
rankedLabels returns the label list in ascending posterior order exactly as
np.argsort does, or fails like an untrained model does; the slicing
[-top_n*3:][::-1] from line 105 is kept concrete in topCategories.
Python's list.sort(key=..., reverse=True) is a stable descending sort by
match_score; it is modelled by List.insertionSort with the relation
scoreGe, which computes the same (unique) stable result.
-/

namespace JobRec

attribute [local semireducible] Rat.mul Rat.add Rat.inv Rat.sub

/-- Model of a dynamically typed field value stored in a document: either a
number or a string.  float(v) succeeds on a number and on a numeric string
and raises otherwise. -/
inductive PyVal where
  | num (q : ℚ)
  | str (s : String)
deriving DecidableEq

/-- Whitespace characters removed by Python str.strip() (ASCII subset). -/
def pySpace (c : Char) : Bool :=
  c = ' ' || c = '\t' || c = '\n' || c = '\r' || c = '\x0b' || c = '\x0c'

/-- Model of Python str.strip(). -/
def pyStrip (s : String) : String :=
  String.mk (((s.data.dropWhile pySpace).reverse.dropWhile pySpace).reverse)

/-- Model of Python str.lower() (ASCII case folding). -/
def pyLower (s : String) : String :=
  String.mk (s.data.map Char.toLower)

/-- Splitting a character list on the comma character; mirrors Python
str.split(",") which yields [""] on the empty string. -/
def splitOnCommaChars : List Char → List (List Char)
  | [] => [[]]
  | c :: rest =>
    match splitOnCommaChars rest with
    | [] => [[c]]
    | g :: gs => if c = ',' then [] :: (g :: gs) else (c :: g) :: gs

/-- Model of Python s.split(","). -/
def pySplitComma (s : String) : List String :=
  (splitOnCommaChars s.data).map String.mk

/-- Numeric value of a digit list. -/
def digitsVal (l : List Char) : ℚ :=
  l.foldl (fun a c => a * 10 + ((c.toNat - 48 : ℕ) : ℚ)) 0

/-- Model of Python float(string): optional surrounding whitespace, an
optional sign, then digits with an optional fractional part.  Returns none
where Python raises ValueError.  (Exponent forms, inf/nan and underscore
separators are not modelled; no claim depends on them.) -/
def parseFloat (s : String) : Option ℚ :=
  let cs := (pyStrip s).data
  let signRest : ℚ × List Char :=
    match cs with
    | '-' :: rest => (-1, rest)
    | '+' :: rest => (1, rest)
    | _ => (1, cs)
  let ip := signRest.2.takeWhile Char.isDigit
  let r1 := signRest.2.dropWhile Char.isDigit
  match r1 with
  | [] => if ip.isEmpty then none else some (signRest.1 * digitsVal ip)
  | '.' :: fp =>
    let fd := fp.takeWhile Char.isDigit
    let r2 := fp.dropWhile Char.isDigit
    if r2.isEmpty && (!ip.isEmpty || !fd.isEmpty) then
      some (signRest.1 * (digitsVal ip + digitsVal fd / (10 : ℚ) ^ fd.length))
    else none
  | _ => none

/-- Model of Python float(v) on a stored field value. -/
def pyFloat : PyVal → Option ℚ
  | .num q => some q
  | .str s => parseFloat s

/-- Python truthiness of a stored field value (0 and "" are falsy). -/
def pyTruthy : PyVal → Bool
  | .num q => q != 0
  | .str s => s != ""

/-- Model of float(d.get(key, dflt)): a missing key takes the numeric
default, a present value goes through float(). -/
def floatOfField (dflt : ℚ) : Option PyVal → Option ℚ
  | none => some dflt
  | some v => pyFloat v

/-- A field is a well-formed numeric field: missing (the source defaults it
to 0) or an actual number.  Strings, even numeric ones, are excluded so the
predicate is exactly the data-model shape the spec declares. -/
def numOk : Option PyVal → Bool
  | none => true
  | some (.num _) => true
  | some (.str _) => false

/-- A candidate document (ai.py reads name, email, skills, bio, experience,
location).  A missing field is none. -/
structure Candidate where
  name : Option String
  email : Option String
  skills : Option String
  bio : Option String
  experience : Option PyVal
  location : Option String
deriving DecidableEq

/-- A job document (ai.py reads title, company, location, required_skills,
experience_required, description). -/
structure Job where
  title : Option String
  company : Option String
  location : Option String
  required_skills : Option String
  experience_required : Option PyVal
  description : Option String
deriving DecidableEq

/-- The normalized skill set of a comma-delimited field, as built on
ai.py lines 62-63: split on commas, keep truthy (non-empty) pieces, strip
and lower-case each, collect into a set. -/
def skillSet (s : String) : Finset String :=
  (((pySplitComma s).filter (fun t => t ≠ "")).map (fun t => pyLower (pyStrip t))).toFinset

/-- Model of Python round(x, 2) (ai.py line 83). -/
def round2 (q : ℚ) : ℚ :=
  ((round (q * 100) : ℤ) : ℚ) / 100

/-- Location normalization used on ai.py line 80: strip then lower. -/
def locNorm (s : Option String) : String :=
  pyLower (pyStrip (s.getD ""))

/-- Model of calculate_match_score (ai.py lines 58-83).  The two float()
conversions on lines 72-73 raise on a non-numeric string, which is the
error case; everything else is total. -/
def calculate_match_score (candidate : Candidate) (job : Job) : Except Unit ℚ :=
  let candidate_skills := skillSet (candidate.skills.getD "")
  let job_skills := skillSet (job.required_skills.getD "")
  let skill_term : ℚ :=
    if candidate_skills ≠ ∅ ∧ job_skills ≠ ∅ then
      ((candidate_skills ∩ job_skills).card : ℚ) / (job_skills.card : ℚ) * 50
    else 0
  match floatOfField 0 candidate.experience, floatOfField 0 job.experience_required with
  | some candidate_exp, some job_exp =>
    let exp_term : ℚ := if candidate_exp ≥ job_exp then 30 else candidate_exp / (max job_exp 1) * 15
    let loc_term : ℚ := if locNorm candidate.location = locNorm job.location then 20 else 0
    .ok (round2 (skill_term + exp_term + loc_term))
  | _, _ => .error ()

/-- A recommendation entry {"job": ..., "match_score": ...} (ai.py 119). -/
structure MatchResult where
  job : Job
  match_score : ℚ
deriving DecidableEq

/-- Abstraction of the fitted classifier state used on ai.py lines 101-106.
rankedLabels returns, for the candidate text, the job-title labels in
ascending posterior-probability order (the order np.argsort(proba) yields
after inverse_transform), or fails the way transform/predict_proba fail on
an untrained or empty-vocabulary model. -/
structure MLModel where
  rankedLabels : String → Except Unit (List String)

/-- Model of float(job.get("experience_required", 0) or 0) from ai.py
lines 110 and 126: a missing or falsy value becomes 0. -/
def jobExpOr0 (job : Job) : Option ℚ :=
  match job.experience_required with
  | none => some 0
  | some v => if pyTruthy v then pyFloat v else some 0

/-- Membership test of line 116: job.get("title") in top_categories; a
missing title (None) is never contained in the string array. -/
def titleMem (t : Option String) (cats : List String) : Bool :=
  match t with
  | some s => decide (s ∈ cats)
  | none => false

/-- Slicing of ai.py line 105: np.argsort(proba)[-top_n*3:][::-1], applied
to the ascending label list.  Python's l[-k:] is the whole list when k = 0. -/
def topCategories (labels : List String) (top_n : Nat) : List String :=
  (if top_n * 3 = 0 then labels else labels.drop (labels.length - top_n * 3)).reverse

/-- Query text of ai.py line 100: f-string of skills and stripped bio. -/
def candText (candidate : Candidate) : String :=
  candidate.skills.getD "" ++ " " ++ pyStrip (candidate.bio.getD "")

/-- The phase-1 loop (ai.py lines 109-119), run inside the try block: the
first exception (a float() failure on line 110 or inside the score call)
aborts the loop and is caught on line 120, keeping the entries appended so
far. -/
def phase1Loop (c : Candidate) (cexp : ℚ) (cats : List String) : List Job → List MatchResult
  | [] => []
  | job :: rest =>
    match jobExpOr0 job with
    | none => []
    | some job_exp =>
      if cexp + 3 < job_exp then phase1Loop c cexp cats rest
      else if titleMem job.title cats then
        match calculate_match_score c job with
        | .error _ => []
        | .ok s =>
          if s > 10 then ⟨job, s⟩ :: phase1Loop c cexp cats rest
          else phase1Loop c cexp cats rest
      else phase1Loop c cexp cats rest

/-- Phase-1 result of ai.py lines 99-121: any classifier failure is caught
and leaves the recommendation list empty. -/
def phase1Results (m : MLModel) (c : Candidate) (cexp : ℚ) (jobs : List Job) (top_n : Nat) :
    List MatchResult :=
  match m.rankedLabels (candText c) with
  | .error _ => []
  | .ok labels => phase1Loop c cexp (topCategories labels top_n) jobs

/-- The duplicate test of ai.py lines 133-135 for one existing entry. -/
def sameKey (r : MatchResult) (job : Job) : Bool :=
  decide (r.job.title = job.title ∧ r.job.company = job.company)

/-- The phase-2 fallback loop (ai.py lines 125-140).  It runs outside any
try block, so a float() or score failure propagates out of the call. -/
def phase2Loop (c : Candidate) (cexp : ℚ) : List Job → List MatchResult → Except Unit (List MatchResult)
  | [], acc => .ok acc
  | job :: rest, acc =>
    match jobExpOr0 job with
    | none => .error ()
    | some job_exp =>
      if cexp + 3 < job_exp then phase2Loop c cexp rest acc
      else if acc.any (fun r => sameKey r job) then phase2Loop c cexp rest acc
      else
        match calculate_match_score c job with
        | .error _ => .error ()
        | .ok s =>
          if s > 5 then phase2Loop c cexp rest (acc ++ [⟨job, s⟩])
          else phase2Loop c cexp rest acc

/-- Ordering used by recommendations.sort(key=lambda x: x["match_score"],
reverse=True) on ai.py line 143: a comes no later than b when its score is
at least b's. -/
abbrev scoreGe (a b : MatchResult) : Prop := b.match_score ≤ a.match_score

/-- Model of recommend_jobs_for_new_candidate (ai.py lines 84-144). -/
def recommend_jobs_for_new_candidate (m : MLModel) (candidate : Candidate)
    (jobs : List Job) (top_n : Nat) : Except Unit (List MatchResult) :=
  if candidate.skills.getD "" = "" ∧ pyStrip (candidate.bio.getD "") = "" then .ok []
  else if jobs = [] then .ok []
  else
    match floatOfField 0 candidate.experience with
    | none => .error ()
    | some candidate_experience =>
      let recs := phase1Results m candidate candidate_experience jobs top_n
      match (if recs.length < top_n then phase2Loop candidate candidate_experience jobs recs
             else .ok recs) with
      | .error e => .error e
      | .ok full => .ok ((List.insertionSort scoreGe full).take top_n)

/-- Word characters of the default scikit-learn token pattern \\w\\w+
(ASCII subset). -/
def isWordChar (c : Char) : Bool := c.isAlphanum || c = '_'

/-- Maximal runs of word characters in a character list. -/
def tokenizeChars : List Char → List (List Char)
  | [] => []
  | c :: rest =>
    let ts := tokenizeChars rest
    if isWordChar c then
      match rest with
      | r :: _ => if isWordChar r then
          (match ts with
           | t :: ts2 => (c :: t) :: ts2
           | [] => [[c]])
        else [c] :: ts
      | [] => [[c]]
    else ts

/-- Tokens of a document under the default token pattern: maximal word
character runs of length at least two. -/
def tokenize (s : String) : List String :=
  ((tokenizeChars s.data).filter (fun t => t.length ≥ 2)).map String.mk

/-- The scikit-learn English stop word list used by
TfidfVectorizer(stop_words="english") on ai.py line 28. -/
def stopWords : List String :=
  ["a", "about", "above", "across", "after", "afterwards", "again", "against",
   "all", "almost", "alone", "along", "already", "also", "although", "always",
   "am", "among", "amongst", "amoungst", "amount", "an", "and", "another",
   "any", "anyhow", "anyone", "anything", "anyway", "anywhere", "are",
   "around", "as", "at", "back", "be", "became", "because", "become",
   "becomes", "becoming", "been", "before", "beforehand", "behind", "being",
   "below", "beside", "besides", "between", "beyond", "bill", "both",
   "bottom", "but", "by", "call", "can", "cannot", "cant", "co", "con",
   "could", "couldnt", "cry", "de", "describe", "detail", "do", "done",
   "down", "due", "during", "each", "eg", "eight", "either", "eleven",
   "else", "elsewhere", "empty", "enough", "etc", "even", "ever", "every",
   "everyone", "everything", "everywhere", "except", "few", "fifteen",
   "fify", "fill", "find", "fire", "first", "five", "for", "former",
   "formerly", "forty", "found", "four", "from", "front", "full", "further",
   "get", "give", "go", "had", "has", "hasnt", "have", "he", "hence", "her",
   "here", "hereafter", "hereby", "herein", "hereupon", "hers", "herself",
   "him", "himself", "his", "how", "however", "hundred", "i", "ie", "if",
   "in", "inc", "indeed", "interest", "into", "is", "it", "its", "itself",
   "keep", "last", "latter", "latterly", "least", "less", "ltd", "made",
   "many", "may", "me", "meanwhile", "might", "mill", "mine", "more",
   "moreover", "most", "mostly", "move", "much", "must", "my", "myself",
   "name", "namely", "neither", "never", "nevertheless", "next", "nine",
   "no", "nobody", "none", "noone", "nor", "not", "nothing", "now",
   "nowhere", "of", "off", "often", "on", "once", "one", "only", "onto",
   "or", "other", "others", "otherwise", "our", "ours", "ourselves", "out",
   "over", "own", "part", "per", "perhaps", "please", "put", "rather", "re",
   "same", "see", "seem", "seemed", "seeming", "seems", "serious",
   "several", "she", "should", "show", "side", "since", "sincere", "six",
   "sixty", "so", "some", "somehow", "someone", "something", "sometime",
   "sometimes", "somewhere", "still", "such", "system", "take", "ten",
   "than", "that", "the", "their", "them", "themselves", "then", "thence",
   "there", "thereafter", "thereby", "therefore", "therein", "thereupon",
   "these", "they", "thick", "thin", "third", "this", "those", "though",
   "three", "through", "throughout", "thru", "thus", "to", "together",
   "too", "top", "toward", "towards", "twelve", "twenty", "two", "un",
   "under", "until", "up", "upon", "us", "very", "via", "was", "we", "well",
   "were", "what", "whatever", "when", "whence", "whenever", "where",
   "whereafter", "whereas", "whereby", "wherein", "whereupon", "wherever",
   "whether", "which", "while", "whither", "who", "whoever", "whole",
   "whom", "whose", "why", "will", "with", "within", "without", "would",
   "yet", "you", "your", "yours", "yourself", "yourselves"]

/-- Vocabulary terms a document contributes: its tokens after lower-casing,
minus stop words. -/
def docTerms (s : String) : List String :=
  (tokenize (pyLower s)).filter (fun t => t ∉ stopWords)

/-- Vocabulary the vectorizer fits over the corpus.  min_df=1 keeps every
term; max_features=500 only caps the vocabulary and cannot empty a
non-empty one, so success is governed by this set being non-empty. -/
def vocabularyOf (texts : List String) : Finset String :=
  ((texts.map docTerms).flatten).toFinset

/-- Model of Python str() on a stored value, used by line 43.  For numbers
the exact decimal rendering is immaterial to every claim (numeric strings
tokenize into digit runs either way); strings pass through unchanged and
the missing-field default is the string "0". -/
def pyStr : PyVal → String
  | .num q => toString q
  | .str s => s

/-- Training text of one job (ai.py lines 42-46). -/
def jobText (job : Job) : String :=
  pyStrip (job.required_skills.getD "" ++ " " ++
    pyStr (job.experience_required.getD (.str "0")) ++ " " ++ job.description.getD "")

/-- The two failure modes of train_model: the explicit ValueError on
line 38 for an empty corpus, and the scikit-learn ValueError raised by
fit_transform when no vocabulary term survives (also covering an empty
text list). -/
inductive TrainError where
  | noJobs
  | emptyVocab
deriving DecidableEq

/-- The non-empty training texts collected on ai.py lines 40-49. -/
def trainTexts (jobs : List Job) : List String :=
  (jobs.map jobText).filter (fun t => t ≠ "")

/-- Model of train_model (ai.py lines 32-56).  Fitting the label encoder
and the multinomial model cannot fail once vectorization succeeded; the
source returns the job list on success. -/
def train_model (jobs : List Job) : Except TrainError (List Job) :=
  if jobs = [] then .error .noJobs
  else if vocabularyOf (trainTexts jobs) = ∅ then .error .emptyVocab
  else .ok jobs

/-- The no-shared-(title, company) relation the spec asserts of result
entries. -/
def keyR (a b : MatchResult) : Prop :=
  ¬(a.job.title = b.job.title ∧ a.job.company = b.job.company)

instance : DecidableRel keyR := fun a b =>
  inferInstanceAs (Decidable (¬(a.job.title = b.job.title ∧ a.job.company = b.job.company)))

instance {ε α : Type} [DecidableEq ε] [DecidableEq α] : DecidableEq (Except ε α) := fun a b =>
  match a, b with
  | .ok x, .ok y =>
    if h : x = y then isTrue (by rw [h]) else isFalse (fun hh => h (by cases hh; rfl))
  | .error x, .error y =>
    if h : x = y then isTrue (by rw [h]) else isFalse (fun hh => h (by cases hh; rfl))
  | .ok _, .error _ => isFalse (fun hh => by cases hh)
  | .error _, .ok _ => isFalse (fun hh => by cases hh)

/-- Sample candidate: skills "python", experience 0, location "remote". -/
def cand0 : Candidate :=
  { name := none, email := none, skills := some "python", bio := some "",
    experience := some (.num 0), location := some "remote" }

/-- Sample job titled "T" at company "C" requiring python in "remote". -/
def jobT : Job :=
  { title := some "T", company := some "C", location := some "remote",
    required_skills := some "python", experience_required := some (.num 0),
    description := none }

/-- A model whose prediction always returns the single label "T". -/
def okModelT : MLModel := ⟨fun _ => .ok ["T"]⟩

/-- A model whose prediction always fails, like an untrained classifier. -/
def errModel : MLModel := ⟨fun _ => .error ()⟩

/-- Candidate whose experience field holds a non-numeric string. -/
def badCand : Candidate :=
  { cand0 with experience := some (.str "abc") }

/-- A job document with every field missing. -/
def emptyJob : Job :=
  { title := none, company := none, location := none, required_skills := none,
    experience_required := none, description := none }

/-- Job with no required_skills field, matching cand0 on the rest. -/
def c3job : Job :=
  { title := none, company := none, location := some "remote",
    required_skills := none, experience_required := some (.num 0),
    description := none }

/-- Candidate with an empty skills field and whitespace-only bio. -/
def noSignalCand : Candidate :=
  { name := none, email := none, skills := some "", bio := some "  ",
    experience := some (.num 2), location := some "remote" }

instance : IsTotal MatchResult scoreGe :=
  ⟨fun a b => le_total b.match_score a.match_score⟩

instance : IsTrans MatchResult scoreGe :=
  ⟨fun _ _ _ h1 h2 => le_trans h2 h1⟩

/-- A numeric-or-missing field always converts through float(). -/
theorem floatOfField_isSome (v : Option PyVal) (h : numOk v = true) :
    ∃ q, floatOfField 0 v = some q := by
  cases v with
  | none => exact ⟨0, rfl⟩
  | some w =>
    cases w with
    | num q => exact ⟨q, rfl⟩
    | str s => simp [numOk] at h

/-- The defaulted conversion of lines 110 and 126 always succeeds on a
numeric-or-missing field. -/
theorem jobExpOr0_isSome (j : Job) (h : numOk j.experience_required = true) :
    ∃ q, jobExpOr0 j = some q := by
  cases hj : j.experience_required with
  | none => exact ⟨0, by simp [jobExpOr0, hj]⟩
  | some w =>
    cases w with
    | num q =>
      by_cases h0 : pyTruthy (PyVal.num q) = true
      · exact ⟨q, by simp [jobExpOr0, hj, h0, pyFloat]⟩
      · exact ⟨0, by simp [jobExpOr0, hj, h0]⟩
    | str s => rw [hj] at h; simp [numOk] at h

/-- The score call is total on records with numeric-or-missing experience
fields. -/
theorem calculate_match_score_isOk (c : Candidate) (j : Job)
    (hc : numOk c.experience = true) (hj : numOk j.experience_required = true) :
    ∃ q, calculate_match_score c j = .ok q := by
  obtain ⟨a, ha⟩ := floatOfField_isSome c.experience hc
  obtain ⟨b, hb⟩ := floatOfField_isSome j.experience_required hj
  cases hq : calculate_match_score c j with
  | error e =>
    unfold calculate_match_score at hq
    rw [ha, hb] at hq
    simp at hq
  | ok q => exact ⟨q, rfl⟩

/-- Closed form of the score once both experience fields convert. -/
theorem calculate_match_score_eq (c : Candidate) (j : Job) (cexp jexp : ℚ)
    (hc : floatOfField 0 c.experience = some cexp)
    (hj : floatOfField 0 j.experience_required = some jexp) :
    calculate_match_score c j = .ok (round2 (
      (if skillSet (c.skills.getD "") ≠ ∅ ∧ skillSet (j.required_skills.getD "") ≠ ∅ then
        ((skillSet (c.skills.getD "") ∩ skillSet (j.required_skills.getD "")).card : ℚ) /
          ((skillSet (j.required_skills.getD "")).card : ℚ) * 50
      else 0) +
      (if cexp ≥ jexp then 30 else cexp / (max jexp 1) * 15) +
      (if locNorm c.location = locNorm j.location then 20 else 0))) := by
  unfold calculate_match_score
  rw [hc, hj]

/-- Rounding to two decimals keeps a nonnegative value nonnegative. -/
theorem round2_nonneg (q : ℚ) (h : 0 ≤ q) : 0 ≤ round2 q := by
  unfold round2
  have h1 : (0:ℤ) ≤ round (q * 100) := by
    rw [round_eq]
    exact Int.le_floor.mpr (by push_cast; linarith)
  exact div_nonneg (by exact_mod_cast h1) (by norm_num)

/-- Rounding to two decimals keeps a value at most 100 at most 100. -/
theorem round2_le_100 (q : ℚ) (h : q ≤ 100) : round2 q ≤ 100 := by
  unfold round2
  have h1 : round (q * 100) ≤ 10000 := by
    rw [round_eq]
    have h2 : ⌊q * 100 + 1/2⌋ < 10001 := Int.floor_lt.mpr (by push_cast; linarith)
    omega
  rw [div_le_iff₀ (by norm_num : (0:ℚ) < 100)]
  have h3 : ((round (q * 100) : ℤ) : ℚ) ≤ (10000:ℚ) := by exact_mod_cast h1
  linarith

/-- The jobs of the phase-1 result form a sublist of the scanned jobs. -/
theorem phase1Loop_map_sublist (c : Candidate) (cexp : ℚ) (cats : List String) :
    ∀ jobs : List Job, ((phase1Loop c cexp cats jobs).map (fun r => r.job)).Sublist jobs := by
  intro jobs
  induction jobs with
  | nil => simp [phase1Loop]
  | cons job rest ih =>
    simp only [phase1Loop]
    cases h : jobExpOr0 job with
    | none => simp
    | some je =>
      by_cases h1 : cexp + 3 < je
      · simp only [if_pos h1]
        exact ih.cons job
      · simp only [if_neg h1]
        by_cases h2 : titleMem job.title cats = true
        · simp only [h2, if_true]
          cases hs : calculate_match_score c job with
          | error e => simp
          | ok s =>
            by_cases h3 : s > 10
            · simp only [if_pos h3, List.map_cons]
              exact List.Sublist.cons₂ job ih
            · simp only [if_neg h3]
              exact ih.cons job
        · simp only [Bool.not_eq_true] at h2
          simp only [h2, Bool.false_eq_true, if_false]
          exact ih.cons job

/-- Every phase-1 entry passed the experience filter and scored above 10. -/
theorem phase1Loop_mem (c : Candidate) (cexp : ℚ) (cats : List String) :
    ∀ (jobs : List Job) (r : MatchResult), r ∈ phase1Loop c cexp cats jobs →
      ∃ jexp, jobExpOr0 r.job = some jexp ∧ ¬(cexp + 3 < jexp) ∧
        calculate_match_score c r.job = .ok r.match_score ∧ 10 < r.match_score := by
  intro jobs
  induction jobs with
  | nil => intro r hr; simp [phase1Loop] at hr
  | cons job rest ih =>
    intro r hr
    simp only [phase1Loop] at hr
    cases h : jobExpOr0 job with
    | none => rw [h] at hr; simp at hr
    | some je =>
      rw [h] at hr
      dsimp only at hr
      by_cases h1 : cexp + 3 < je
      · rw [if_pos h1] at hr
        exact ih r hr
      · rw [if_neg h1] at hr
        by_cases h2 : titleMem job.title cats = true
        · simp only [h2, if_true] at hr
          cases hs : calculate_match_score c job with
          | error e => rw [hs] at hr; simp at hr
          | ok s =>
            rw [hs] at hr
            dsimp only at hr
            by_cases h3 : s > 10
            · rw [if_pos h3] at hr
              rcases List.mem_cons.mp hr with h4 | h4
              · subst h4
                exact ⟨je, h, h1, hs, h3⟩
              · exact ih r h4
            · rw [if_neg h3] at hr
              exact ih r hr
        · simp only [Bool.not_eq_true] at h2
          simp only [h2, Bool.false_eq_true, if_false] at hr
          exact ih r hr

/-- A successful fallback pass extends its accumulator with entries that
passed the experience filter, scored above 5, and come from the scanned
jobs. -/
theorem phase2Loop_ok_shape (c : Candidate) (cexp : ℚ) :
    ∀ (jobs : List Job) (acc out : List MatchResult),
      phase2Loop c cexp jobs acc = .ok out →
      ∃ extra, out = acc ++ extra ∧ ∀ r ∈ extra,
        (∃ jexp, jobExpOr0 r.job = some jexp ∧ ¬(cexp + 3 < jexp)) ∧
        calculate_match_score c r.job = .ok r.match_score ∧ 5 < r.match_score ∧ r.job ∈ jobs := by
  intro jobs
  induction jobs with
  | nil =>
    intro acc out h
    simp only [phase2Loop, Except.ok.injEq] at h
    exact ⟨[], by simp [h], by simp⟩
  | cons job rest ih =>
    intro acc out h
    simp only [phase2Loop] at h
    cases hje : jobExpOr0 job with
    | none => rw [hje] at h; simp at h
    | some je =>
      rw [hje] at h
      dsimp only at h
      by_cases h1 : cexp + 3 < je
      · rw [if_pos h1] at h
        obtain ⟨extra, hout, hp⟩ := ih acc out h
        exact ⟨extra, hout, fun r hr =>
          ⟨(hp r hr).1, (hp r hr).2.1, (hp r hr).2.2.1, List.mem_cons_of_mem job (hp r hr).2.2.2⟩⟩
      · rw [if_neg h1] at h
        by_cases h2 : (acc.any fun r => sameKey r job) = true
        · simp only [h2, if_true] at h
          obtain ⟨extra, hout, hp⟩ := ih acc out h
          exact ⟨extra, hout, fun r hr =>
            ⟨(hp r hr).1, (hp r hr).2.1, (hp r hr).2.2.1, List.mem_cons_of_mem job (hp r hr).2.2.2⟩⟩
        · simp only [Bool.not_eq_true] at h2
          simp only [h2, Bool.false_eq_true, if_false] at h
          cases hs : calculate_match_score c job with
          | error e => rw [hs] at h; simp at h
          | ok s =>
            rw [hs] at h
            dsimp only at h
            by_cases h3 : s > 5
            · rw [if_pos h3] at h
              obtain ⟨extra, hout, hp⟩ := ih (acc ++ [⟨job, s⟩]) out h
              refine ⟨⟨job, s⟩ :: extra, by simp [hout], fun r hr => ?_⟩
              rcases List.mem_cons.mp hr with h4 | h4
              · subst h4
                exact ⟨⟨je, hje, h1⟩, hs, h3, List.mem_cons_self job rest⟩
              · exact ⟨(hp r h4).1, (hp r h4).2.1, (hp r h4).2.2.1,
                  List.mem_cons_of_mem job (hp r h4).2.2.2⟩
            · rw [if_neg h3] at h
              obtain ⟨extra, hout, hp⟩ := ih acc out h
              exact ⟨extra, hout, fun r hr =>
                ⟨(hp r hr).1, (hp r hr).2.1, (hp r hr).2.2.1,
                  List.mem_cons_of_mem job (hp r hr).2.2.2⟩⟩

/-- The fallback pass preserves pairwise-distinct (title, company) keys:
every appended entry is checked against the whole accumulated list. -/
theorem phase2Loop_pairwise (c : Candidate) (cexp : ℚ) :
    ∀ (jobs : List Job) (acc out : List MatchResult),
      phase2Loop c cexp jobs acc = .ok out → acc.Pairwise keyR → out.Pairwise keyR := by
  intro jobs
  induction jobs with
  | nil =>
    intro acc out h hacc
    simp only [phase2Loop, Except.ok.injEq] at h
    exact h ▸ hacc
  | cons job rest ih =>
    intro acc out h hacc
    simp only [phase2Loop] at h
    cases hje : jobExpOr0 job with
    | none => rw [hje] at h; simp at h
    | some je =>
      rw [hje] at h
      dsimp only at h
      by_cases h1 : cexp + 3 < je
      · rw [if_pos h1] at h
        exact ih acc out h hacc
      · rw [if_neg h1] at h
        by_cases h2 : (acc.any fun r => sameKey r job) = true
        · simp only [h2, if_true] at h
          exact ih acc out h hacc
        · simp only [Bool.not_eq_true] at h2
          simp only [h2, Bool.false_eq_true, if_false] at h
          cases hs : calculate_match_score c job with
          | error e => rw [hs] at h; simp at h
          | ok s =>
            rw [hs] at h
            dsimp only at h
            by_cases h3 : s > 5
            · rw [if_pos h3] at h
              refine ih (acc ++ [⟨job, s⟩]) out h ?_
              rw [List.pairwise_append]
              refine ⟨hacc, List.pairwise_singleton keyR ⟨job, s⟩, fun a ha b hb => ?_⟩
              rw [List.mem_singleton] at hb
              subst hb
              have h5 : sameKey a job = false := by
                rw [List.any_eq_false] at h2
                exact Bool.not_eq_true _ ▸ (by simpa using h2 a ha)
              unfold sameKey at h5
              rw [decide_eq_false_iff_not] at h5
              exact h5
            · rw [if_neg h3] at h
              exact ih acc out h hacc

/-- The fallback pass always succeeds on records whose experience fields
are numeric or missing. -/
theorem phase2Loop_isOk (c : Candidate) (cexp : ℚ) (hc : numOk c.experience = true) :
    ∀ (jobs : List Job), (∀ j ∈ jobs, numOk j.experience_required = true) →
      ∀ acc, ∃ out, phase2Loop c cexp jobs acc = .ok out := by
  intro jobs
  induction jobs with
  | nil => intro _ acc; exact ⟨acc, rfl⟩
  | cons job rest ih =>
    intro hnum acc
    have hrest : ∀ j ∈ rest, numOk j.experience_required = true :=
      fun j hj => hnum j (List.mem_cons_of_mem job hj)
    obtain ⟨je, hje⟩ := jobExpOr0_isSome job (hnum job (List.mem_cons_self job rest))
    simp only [phase2Loop, hje]
    by_cases h1 : cexp + 3 < je
    · rw [if_pos h1]
      exact ih hrest acc
    · rw [if_neg h1]
      by_cases h2 : (acc.any fun r => sameKey r job) = true
      · simp only [h2, if_true]
        exact ih hrest acc
      · simp only [Bool.not_eq_true] at h2
        simp only [h2, Bool.false_eq_true, if_false]
        obtain ⟨s, hs⟩ :=
          calculate_match_score_isOk c job hc (hnum job (List.mem_cons_self job rest))
        rw [hs]
        dsimp only
        by_cases h3 : s > 5
        · rw [if_pos h3]
          exact ih hrest (acc ++ [⟨job, s⟩])
        · rw [if_neg h3]
          exact ih hrest acc

/-- On success, the fallback keeps every accumulated entry, and every
scanned job that passes the filter and scores above 5 is represented in
the output by an entry with its (title, company) key. -/
theorem phase2Loop_coverage (c : Candidate) (cexp : ℚ) :
    ∀ (jobs : List Job) (acc out : List MatchResult),
      phase2Loop c cexp jobs acc = .ok out →
      (∀ r ∈ acc, r ∈ out) ∧
      ∀ j ∈ jobs, ∀ jexp s, jobExpOr0 j = some jexp → ¬(cexp + 3 < jexp) →
        calculate_match_score c j = .ok s → 5 < s →
        ∃ r, r ∈ out ∧ r.job.title = j.title ∧ r.job.company = j.company := by
  intro jobs
  induction jobs with
  | nil =>
    intro acc out h
    simp only [phase2Loop, Except.ok.injEq] at h
    exact ⟨fun r hr => h ▸ hr, by simp⟩
  | cons job rest ih =>
    intro acc out h
    simp only [phase2Loop] at h
    cases hje : jobExpOr0 job with
    | none => rw [hje] at h; simp at h
    | some je =>
      rw [hje] at h
      dsimp only at h
      by_cases h1 : cexp + 3 < je
      · rw [if_pos h1] at h
        obtain ⟨hkeep, hcov⟩ := ih acc out h
        refine ⟨hkeep, fun j hj jexp s hjexp hfilt hscore hgt => ?_⟩
        rcases List.mem_cons.mp hj with h4 | h4
        · subst h4
          rw [hje] at hjexp
          cases hjexp
          exact absurd h1 hfilt
        · exact hcov j h4 jexp s hjexp hfilt hscore hgt
      · rw [if_neg h1] at h
        by_cases h2 : (acc.any fun r => sameKey r job) = true
        · simp only [h2, if_true] at h
          obtain ⟨hkeep, hcov⟩ := ih acc out h
          refine ⟨hkeep, fun j hj jexp s hjexp hfilt hscore hgt => ?_⟩
          rcases List.mem_cons.mp hj with h4 | h4
          · subst h4
            rw [List.any_eq_true] at h2
            obtain ⟨r0, hr0, hkey⟩ := h2
            unfold sameKey at hkey
            rw [decide_eq_true_eq] at hkey
            exact ⟨r0, hkeep r0 hr0, hkey.1, hkey.2⟩
          · exact hcov j h4 jexp s hjexp hfilt hscore hgt
        · simp only [Bool.not_eq_true] at h2
          simp only [h2, Bool.false_eq_true, if_false] at h
          cases hs : calculate_match_score c job with
          | error e => rw [hs] at h; simp at h
          | ok s0 =>
            rw [hs] at h
            dsimp only at h
            by_cases h3 : s0 > 5
            · rw [if_pos h3] at h
              obtain ⟨hkeep, hcov⟩ := ih (acc ++ [⟨job, s0⟩]) out h
              refine ⟨fun r hr => hkeep r (List.mem_append_left _ hr),
                fun j hj jexp s hjexp hfilt hscore hgt => ?_⟩
              rcases List.mem_cons.mp hj with h4 | h4
              · subst h4
                exact ⟨⟨j, s0⟩, hkeep ⟨j, s0⟩ (by simp), rfl, rfl⟩
              · exact hcov j h4 jexp s hjexp hfilt hscore hgt
            · rw [if_neg h3] at h
              obtain ⟨hkeep, hcov⟩ := ih acc out h
              refine ⟨hkeep, fun j hj jexp s hjexp hfilt hscore hgt => ?_⟩
              rcases List.mem_cons.mp hj with h4 | h4
              · subst h4
                rw [hs] at hscore
                cases hscore
                exact absurd hgt h3
              · exact hcov j h4 jexp s hjexp hfilt hscore hgt

/-- A list is a sublist of the result of inserting one element into it. -/
theorem sublist_orderedInsert_self {α : Type} (r : α → α → Prop) [DecidableRel r] (a : α) :
    ∀ l : List α, l.Sublist (List.orderedInsert r a l) := by
  intro l
  induction l with
  | nil => simp [List.orderedInsert]
  | cons b t ih =>
    simp only [List.orderedInsert]
    by_cases h : r a b
    · rw [if_pos h]
      exact List.sublist_cons_self a (b :: t)
    · rw [if_neg h]
      exact List.Sublist.cons₂ b ih

/-- Inserting a that relates to every element of a sublist keeps a in
front of that sublist. -/
theorem orderedInsert_cons_sublist {α : Type} (r : α → α → Prop) [DecidableRel r] (a : α) :
    ∀ (s l' : List α), l'.Sublist s → (∀ x ∈ l', r a x) →
      (a :: l').Sublist (List.orderedInsert r a s) := by
  intro s
  induction s with
  | nil =>
    intro l' hs h
    rw [List.sublist_nil.mp hs]
    simp [List.orderedInsert]
  | cons b t ih =>
    intro l' hs h
    simp only [List.orderedInsert]
    by_cases hr : r a b
    · rw [if_pos hr]
      exact List.Sublist.cons₂ a hs
    · rw [if_neg hr]
      cases hs with
      | cons x h2 => exact List.Sublist.cons b (ih l' h2 h)
      | cons₂ x h2 => exact absurd (h b (List.mem_cons_self b _)) hr

/-- Stability of the modelled sort: a chain already ordered by the sort
relation keeps its relative order (as a sublist) through sorting.  This is
the standard characterization of a stable sort, matching Python's
list.sort. -/
theorem insertionSort_stable {α : Type} (r : α → α → Prop) [DecidableRel r] :
    ∀ (l l' : List α), l'.Pairwise r → l'.Sublist l →
      l'.Sublist (List.insertionSort r l) := by
  intro l
  induction l with
  | nil =>
    intro l' _ hs
    simpa using hs
  | cons a t ih =>
    intro l' hp hs
    simp only [List.insertionSort]
    cases hs with
    | cons x h2 => exact (ih l' hp h2).trans (sublist_orderedInsert_self r a _)
    | cons₂ x h2 =>
      obtain ⟨hhead, htail⟩ := List.pairwise_cons.mp hp
      exact orderedInsert_cons_sublist r a _ _ (ih _ htail h2) hhead

/-- Dissection of a successful recommend call past its two guard clauses:
the candidate experience converted, and the output is the stable
descending sort of the merged phase list, truncated to top_n. -/
theorem recommend_ok_cases (m : MLModel) (c : Candidate) (jobs : List Job) (top_n : Nat)
    (out : List MatchResult)
    (hguard : ¬(c.skills.getD "" = "" ∧ pyStrip (c.bio.getD "") = ""))
    (hjobs : jobs ≠ [])
    (h : recommend_jobs_for_new_candidate m c jobs top_n = .ok out) :
    ∃ cexp full, floatOfField 0 c.experience = some cexp ∧
      (((phase1Results m c cexp jobs top_n).length < top_n ∧
          phase2Loop c cexp jobs (phase1Results m c cexp jobs top_n) = .ok full) ∨
        (¬((phase1Results m c cexp jobs top_n).length < top_n) ∧
          full = phase1Results m c cexp jobs top_n)) ∧
      out = (List.insertionSort scoreGe full).take top_n := by
  unfold recommend_jobs_for_new_candidate at h
  rw [if_neg hguard, if_neg hjobs] at h
  cases hc : floatOfField 0 c.experience with
  | none => rw [hc] at h; simp at h
  | some cexp =>
    rw [hc] at h
    dsimp only at h
    by_cases hlen : (phase1Results m c cexp jobs top_n).length < top_n
    · rw [if_pos hlen] at h
      cases hp : phase2Loop c cexp jobs (phase1Results m c cexp jobs top_n) with
      | error e => rw [hp] at h; simp at h
      | ok full =>
        rw [hp] at h
        dsimp only at h
        exact ⟨cexp, full, rfl, Or.inl ⟨hlen, hp⟩, (Except.ok.injEq _ _ ▸ h).symm⟩
    · rw [if_neg hlen] at h
      dsimp only at h
      exact ⟨cexp, phase1Results m c cexp jobs top_n, rfl, Or.inr ⟨hlen, rfl⟩,
        (Except.ok.injEq _ _ ▸ h).symm⟩

/-- The skill term of the score is between 0 and 50. -/
theorem skillTerm_bounds (A B : Finset String) :
    0 ≤ (if A ≠ ∅ ∧ B ≠ ∅ then ((A ∩ B).card : ℚ) / (B.card : ℚ) * 50 else 0) ∧
    (if A ≠ ∅ ∧ B ≠ ∅ then ((A ∩ B).card : ℚ) / (B.card : ℚ) * 50 else 0) ≤ 50 := by
  by_cases hAB : A ≠ ∅ ∧ B ≠ ∅
  · simp only [if_pos hAB]
    have hB : 0 < (B.card : ℚ) := by
      exact_mod_cast Finset.card_pos.mpr (Finset.nonempty_iff_ne_empty.mpr hAB.2)
    have h1 : ((A ∩ B).card : ℚ) / (B.card : ℚ) ≤ 1 := by
      rw [div_le_one hB]
      exact_mod_cast Finset.card_le_card Finset.inter_subset_right
    have h0 : 0 ≤ ((A ∩ B).card : ℚ) / (B.card : ℚ) :=
      div_nonneg (by positivity) (le_of_lt hB)
    constructor <;> nlinarith
  · simp [if_neg hAB]

/-- The experience term of the score is between 0 and 30 for a nonnegative
candidate experience. -/
theorem expTerm_bounds (cexp jexp : ℚ) (hc0 : 0 ≤ cexp) :
    0 ≤ (if cexp ≥ jexp then (30:ℚ) else cexp / (max jexp 1) * 15) ∧
    (if cexp ≥ jexp then (30:ℚ) else cexp / (max jexp 1) * 15) ≤ 30 := by
  by_cases h : cexp ≥ jexp
  · simp [if_pos h]
  · simp only [if_neg h]
    have hM : (0:ℚ) < max jexp 1 := lt_of_lt_of_le one_pos (le_max_right _ _)
    have hlt : cexp < jexp := lt_of_not_ge h
    have hcM : cexp ≤ max jexp 1 := le_trans (le_of_lt hlt) (le_max_left _ _)
    have h1 : cexp / max jexp 1 ≤ 1 := (div_le_one hM).mpr hcM
    have h0 : 0 ≤ cexp / max jexp 1 := div_nonneg hc0 (le_of_lt hM)
    constructor <;> nlinarith

/-- The partial-credit experience term is strictly below full credit. -/
theorem expTerm_lt_15 (cexp jexp : ℚ) (h : ¬(cexp ≥ jexp)) :
    cexp / (max jexp 1) * 15 < 15 := by
  have hM : (0:ℚ) < max jexp 1 := lt_of_lt_of_le one_pos (le_max_right _ _)
  have hlt : cexp < jexp := lt_of_not_ge h
  have hcM : cexp < max jexp 1 := lt_of_lt_of_le hlt (le_max_left _ _)
  have h1 : cexp / max jexp 1 < 1 := (div_lt_one hM).mpr hcM
  nlinarith

/-- C7: a candidate whose skills field is empty and whose bio is empty
after stripping gets the empty recommendation list immediately, for every
model, job sequence and top_n, with no scoring attempted and no error. -/
theorem C7_main (m : MLModel) (c : Candidate) (jobs : List Job) (top_n : Nat)
    (h1 : c.skills.getD "" = "") (h2 : pyStrip (c.bio.getD "") = "") :
    recommend_jobs_for_new_candidate m c jobs top_n = .ok [] := by
  unfold recommend_jobs_for_new_candidate
  rw [if_pos ⟨h1, h2⟩]

/-- Witness for C7 at a concrete candidate with an empty skills field and a
whitespace-only bio. -/
theorem C7_witness :
    (noSignalCand.skills.getD "" = "" ∧ pyStrip (noSignalCand.bio.getD "") = "") ∧
    recommend_jobs_for_new_candidate okModelT noSignalCand [jobT] 5 = .ok [] :=
  ⟨⟨rfl, rfl⟩, C7_main okModelT noSignalCand [jobT] 5 rfl rfl⟩

/-- C10: a candidate passing the empty-signal guard gets the empty list,
without an error, whenever the job sequence is empty. -/
theorem C10_main (m : MLModel) (c : Candidate) (top_n : Nat)
    (h : ¬(c.skills.getD "" = "" ∧ pyStrip (c.bio.getD "") = "")) :
    recommend_jobs_for_new_candidate m c [] top_n = .ok [] := by
  unfold recommend_jobs_for_new_candidate
  rw [if_neg h, if_pos rfl]

/-- Witness for C10 at a concrete candidate with skills "python". -/
theorem C10_witness :
    ¬(cand0.skills.getD "" = "" ∧ pyStrip (cand0.bio.getD "") = "") ∧
    recommend_jobs_for_new_candidate okModelT cand0 [] 3 = .ok [] :=
  ⟨by decide, C10_main okModelT cand0 3 (by decide)⟩

/-- C2 (amended): the score is a pure total function on records whose
experience fields are numeric or missing (a missing field defaults to
empty/zero); a non-numeric experience string, however, makes the call fail
instead of being treated as zero, refuting the original claim. -/
theorem C2_main (c : Candidate) (j : Job)
    (hc : numOk c.experience = true) (hj : numOk j.experience_required = true) :
    ∃ q, calculate_match_score c j = .ok q :=
  calculate_match_score_isOk c j hc hj

/-- Counterexample for C2: a candidate whose experience field holds the
non-numeric string "abc" makes calculate_match_score fail, because the
source applies float() to it (Python float("abc") raises ValueError); the
claim said the score never fails and malformed fields default to zero. -/
theorem C2_cex : calculate_match_score badCand jobT = .error () := rfl

/-- Witness for C2 at concrete records with numeric experience fields. -/
theorem C2_witness :
    (numOk cand0.experience = true ∧ numOk jobT.experience_required = true) ∧
    ∃ q, calculate_match_score cand0 jobT = .ok q :=
  ⟨⟨rfl, rfl⟩, C2_main cand0 jobT rfl rfl⟩

/-- C4: for every candidate and job whose experience fields convert to
nonnegative numbers, the score is defined and lies in the closed interval
[0, 100]. -/
theorem C4_main (c : Candidate) (j : Job) (cexp jexp : ℚ)
    (hc : floatOfField 0 c.experience = some cexp)
    (hj : floatOfField 0 j.experience_required = some jexp)
    (hc0 : 0 ≤ cexp) (_hj0 : 0 ≤ jexp) :
    ∃ q, calculate_match_score c j = .ok q ∧ 0 ≤ q ∧ q ≤ 100 := by
  rw [calculate_match_score_eq c j cexp jexp hc hj]
  obtain ⟨hs0, hs1⟩ :=
    skillTerm_bounds (skillSet (c.skills.getD "")) (skillSet (j.required_skills.getD ""))
  obtain ⟨he0, he1⟩ := expTerm_bounds cexp jexp hc0
  have hl0 : (0:ℚ) ≤ (if locNorm c.location = locNorm j.location then (20:ℚ) else 0) := by
    split <;> norm_num
  have hl1 : (if locNorm c.location = locNorm j.location then (20:ℚ) else 0) ≤ 20 := by
    split <;> norm_num
  exact ⟨_, rfl, round2_nonneg _ (by linarith), round2_le_100 _ (by linarith)⟩

/-- Witness for C4 at concrete records with experience 0 on both sides. -/
theorem C4_witness :
    ∃ q, calculate_match_score cand0 jobT = .ok q ∧ 0 ≤ q ∧ q ≤ 100 :=
  C4_main cand0 jobT 0 0 rfl rfl le_rfl le_rfl

/-- Phase-1 members passed the experience filter and scored above 10. -/
theorem phase1Results_mem (m : MLModel) (c : Candidate) (cexp : ℚ) (jobs : List Job)
    (top_n : Nat) (r : MatchResult) (hr : r ∈ phase1Results m c cexp jobs top_n) :
    ∃ jexp, jobExpOr0 r.job = some jexp ∧ ¬(cexp + 3 < jexp) ∧
      calculate_match_score c r.job = .ok r.match_score ∧ 10 < r.match_score := by
  unfold phase1Results at hr
  cases hml : m.rankedLabels (candText c) with
  | error e => rw [hml] at hr; simp at hr
  | ok labels =>
    rw [hml] at hr
    dsimp only at hr
    exact phase1Loop_mem c cexp _ jobs r hr

/-- The jobs of the phase-1 result form a sublist of the input jobs. -/
theorem phase1Results_map_sublist (m : MLModel) (c : Candidate) (cexp : ℚ)
    (jobs : List Job) (top_n : Nat) :
    ((phase1Results m c cexp jobs top_n).map (fun r => r.job)).Sublist jobs := by
  unfold phase1Results
  cases hml : m.rankedLabels (candText c) with
  | error e => simp
  | ok labels => exact phase1Loop_map_sublist c cexp _ jobs

/-- C1 (amended): a successful recommend result never exceeds top_n
entries; and when the input jobs carry pairwise distinct (title, company)
pairs, the result entries carry pairwise distinct (title, company) pairs.
(The phase-1 loop performs no deduplication, so duplicate postings in the
input can yield duplicate entries; see the counterexample.) -/
theorem C1_main (m : MLModel) (c : Candidate) (jobs : List Job) (top_n : Nat)
    (out : List MatchResult)
    (hdist : jobs.Pairwise (fun a b => ¬(a.title = b.title ∧ a.company = b.company)))
    (h : recommend_jobs_for_new_candidate m c jobs top_n = .ok out) :
    out.length ≤ top_n ∧ out.Pairwise keyR := by
  by_cases hguard : c.skills.getD "" = "" ∧ pyStrip (c.bio.getD "") = ""
  · have h0 : recommend_jobs_for_new_candidate m c jobs top_n = .ok [] := by
      unfold recommend_jobs_for_new_candidate
      rw [if_pos hguard]
    rw [h0] at h
    cases h
    simp
  · by_cases hjobs : jobs = []
    · subst hjobs
      have h0 : recommend_jobs_for_new_candidate m c [] top_n = .ok [] := by
        unfold recommend_jobs_for_new_candidate
        rw [if_neg hguard, if_pos rfl]
      rw [h0] at h
      cases h
      simp
    · obtain ⟨cexp, full, hc', hcase, hout⟩ :=
        recommend_ok_cases m c jobs top_n out hguard hjobs h
      subst hout
      constructor
      · rw [List.length_take]
        exact min_le_left _ _
      · have hp1 : (phase1Results m c cexp jobs top_n).Pairwise keyR := by
          have hsub := phase1Results_map_sublist m c cexp jobs top_n
          have hmap := List.Pairwise.sublist hsub hdist
          rw [List.pairwise_map] at hmap
          exact hmap
        have hfull : full.Pairwise keyR := by
          rcases hcase with ⟨hlen, hp2⟩ | ⟨hlen, hfull⟩
          · exact phase2Loop_pairwise c cexp jobs _ full hp2 hp1
          · rw [hfull]; exact hp1
        have hsymm : ∀ {x y : MatchResult}, keyR x y → keyR y x := by
          intro x y hxy hcon
          exact hxy ⟨hcon.1.symm, hcon.2.symm⟩
        have hsorted_pw : (List.insertionSort scoreGe full).Pairwise keyR :=
          (List.Perm.pairwise_iff hsymm (List.perm_insertionSort scoreGe full)).mpr hfull
        exact List.Pairwise.sublist (List.take_sublist _ _) hsorted_pw

/-- Counterexample for C1: with two identical postings in the input, the
phase-1 loop (which never deduplicates) emits two result entries sharing
the (title, company) pair (some "T", some "C"), and both survive the merge
and truncation. -/
theorem C1_cex :
    recommend_jobs_for_new_candidate okModelT cand0 [jobT, jobT] 5 =
      .ok [⟨jobT, 100⟩, ⟨jobT, 100⟩] ∧
    ¬ ([(⟨jobT, 100⟩ : MatchResult), ⟨jobT, 100⟩].Pairwise keyR) := by
  constructor
  · rfl
  · intro hp
    exact (List.pairwise_cons.mp hp).1 ⟨jobT, 100⟩ (List.mem_singleton.mpr rfl) ⟨rfl, rfl⟩

/-- Witness for C1 at a single concrete posting. -/
theorem C1_witness :
    ([jobT].Pairwise (fun a b => ¬(a.title = b.title ∧ a.company = b.company))) ∧
    ([(⟨jobT, 100⟩ : MatchResult)].length ≤ 5 ∧
      [(⟨jobT, 100⟩ : MatchResult)].Pairwise keyR) :=
  ⟨List.pairwise_singleton _ _,
    C1_main okModelT cand0 [jobT] 5 [⟨jobT, 100⟩] (List.pairwise_singleton _ _) rfl⟩

/-- C6: no job whose defaulted experience requirement exceeds the candidate
experience by more than 3 years ever appears in a successful recommend
result; the relaxation filter is enforced in both phases. -/
theorem C6_main (m : MLModel) (c : Candidate) (jobs : List Job) (top_n : Nat)
    (out : List MatchResult) (cexp jexp : ℚ) (r : MatchResult)
    (h : recommend_jobs_for_new_candidate m c jobs top_n = .ok out)
    (hr : r ∈ out)
    (hc : floatOfField 0 c.experience = some cexp)
    (hj : jobExpOr0 r.job = some jexp) :
    jexp ≤ cexp + 3 := by
  by_cases hguard : c.skills.getD "" = "" ∧ pyStrip (c.bio.getD "") = ""
  · have h0 : recommend_jobs_for_new_candidate m c jobs top_n = .ok [] := by
      unfold recommend_jobs_for_new_candidate
      rw [if_pos hguard]
    rw [h0] at h
    cases h
    simp at hr
  · by_cases hjobs : jobs = []
    · subst hjobs
      have h0 : recommend_jobs_for_new_candidate m c [] top_n = .ok [] := by
        unfold recommend_jobs_for_new_candidate
        rw [if_neg hguard, if_pos rfl]
      rw [h0] at h
      cases h
      simp at hr
    · obtain ⟨cexp', full, hc', hcase, hout⟩ :=
        recommend_ok_cases m c jobs top_n out hguard hjobs h
      rw [hc] at hc'
      cases hc'
      subst hout
      have hrfull : r ∈ full :=
        (List.perm_insertionSort scoreGe full).mem_iff.mp (List.take_subset _ _ hr)
      have hfilt : ∃ je, jobExpOr0 r.job = some je ∧ ¬(cexp + 3 < je) := by
        rcases hcase with ⟨hlen, hp2⟩ | ⟨hlen, hfull⟩
        · obtain ⟨extra, hout2, hprops⟩ := phase2Loop_ok_shape c cexp jobs _ full hp2
          rw [hout2] at hrfull
          rcases List.mem_append.mp hrfull with h4 | h4
          · obtain ⟨je, hje, hf, _, _⟩ := phase1Results_mem m c cexp jobs top_n r h4
            exact ⟨je, hje, hf⟩
          · exact (hprops r h4).1
        · rw [hfull] at hrfull
          obtain ⟨je, hje, hf, _, _⟩ := phase1Results_mem m c cexp jobs top_n r hrfull
          exact ⟨je, hje, hf⟩
      obtain ⟨je, hje, hf⟩ := hfilt
      rw [hj] at hje
      cases hje
      exact le_of_not_lt hf

/-- Witness for C6 at a concrete call whose single result satisfies the
experience window. -/
theorem C6_witness :
    recommend_jobs_for_new_candidate okModelT cand0 [jobT] 5 = .ok [⟨jobT, 100⟩] ∧
    (0:ℚ) ≤ 0 + 3 :=
  ⟨rfl, C6_main okModelT cand0 [jobT] 5 [⟨jobT, 100⟩] 0 0 ⟨jobT, 100⟩ rfl
    (List.mem_singleton.mpr rfl) rfl rfl⟩

/-- C5: when the classifier prediction fails on the candidate text, the
call does not abort: phase 1 is treated as empty, the fallback scans all
jobs, the result is the stable descending sort of the fallback entries
truncated to top_n, and every job within the experience window scoring
above 5 is represented among the fallback entries by its (title, company)
key. -/
theorem C5_main (m : MLModel) (c : Candidate) (jobs : List Job) (top_n : Nat) (cexp : ℚ)
    (hguard : ¬(c.skills.getD "" = "" ∧ pyStrip (c.bio.getD "") = ""))
    (hjobs : jobs ≠ [])
    (hn : 0 < top_n)
    (hc : floatOfField 0 c.experience = some cexp)
    (hcnum : numOk c.experience = true)
    (hnum : ∀ j ∈ jobs, numOk j.experience_required = true)
    (hml : m.rankedLabels (candText c) = .error ()) :
    ∃ p2, phase2Loop c cexp jobs [] = .ok p2 ∧
      recommend_jobs_for_new_candidate m c jobs top_n =
        .ok ((List.insertionSort scoreGe p2).take top_n) ∧
      ∀ j ∈ jobs, ∀ jexp s, jobExpOr0 j = some jexp → ¬(cexp + 3 < jexp) →
        calculate_match_score c j = .ok s → 5 < s →
        ∃ r, r ∈ p2 ∧ r.job.title = j.title ∧ r.job.company = j.company := by
  have hp1 : phase1Results m c cexp jobs top_n = [] := by
    unfold phase1Results
    rw [hml]
  obtain ⟨p2, hp2⟩ := phase2Loop_isOk c cexp hcnum jobs hnum []
  refine ⟨p2, hp2, ?_, (phase2Loop_coverage c cexp jobs [] p2 hp2).2⟩
  unfold recommend_jobs_for_new_candidate
  rw [if_neg hguard, if_neg hjobs, hc]
  dsimp only
  rw [hp1]
  simp only [List.length_nil, if_pos hn, hp2]

/-- Witness for C5: the failing model still produces the fallback match. -/
theorem C5_witness :
    ∃ p2, phase2Loop cand0 0 [jobT] [] = .ok p2 ∧
      recommend_jobs_for_new_candidate errModel cand0 [jobT] 5 =
        .ok ((List.insertionSort scoreGe p2).take 5) ∧
      ∀ j ∈ [jobT], ∀ jexp s, jobExpOr0 j = some jexp → ¬((0:ℚ) + 3 < jexp) →
        calculate_match_score cand0 j = .ok s → 5 < s →
        ∃ r, r ∈ p2 ∧ r.job.title = j.title ∧ r.job.company = j.company :=
  C5_main errModel cand0 [jobT] 5 0 (by decide) (by decide) (by decide) rfl rfl
    (by decide) rfl

/-- C8: a successful recommend call past the guards returns the stable
descending sort, by match_score, of the merged list full, truncated to the
first top_n entries, where full is pinned to the source's control flow: it
is the phase-1 entries followed by the phase-2 additions p2new, and when
phase 1 falls short of top_n it is exactly the output of the phase-2
fallback seeded with the phase-1 entries, while otherwise the fallback is
skipped and p2new is empty.  The output is sorted non-increasingly, and
any score-ordered chain of full keeps its relative order through the sort
(so ties keep phase-1 entries before phase-2 entries, in original job
order within each phase). -/
theorem C8_main (m : MLModel) (c : Candidate) (jobs : List Job) (top_n : Nat)
    (out : List MatchResult) (cexp : ℚ)
    (hguard : ¬(c.skills.getD "" = "" ∧ pyStrip (c.bio.getD "") = ""))
    (hjobs : jobs ≠ [])
    (hc : floatOfField 0 c.experience = some cexp)
    (h : recommend_jobs_for_new_candidate m c jobs top_n = .ok out) :
    ∃ full p2new,
      full = phase1Results m c cexp jobs top_n ++ p2new ∧
      (((phase1Results m c cexp jobs top_n).length < top_n ∧
          phase2Loop c cexp jobs (phase1Results m c cexp jobs top_n) = .ok full) ∨
        (¬((phase1Results m c cexp jobs top_n).length < top_n) ∧ p2new = [])) ∧
      out = (List.insertionSort scoreGe full).take top_n ∧
      out.Pairwise scoreGe ∧
      (∀ l' : List MatchResult, l'.Pairwise scoreGe → l'.Sublist full →
        l'.Sublist (List.insertionSort scoreGe full)) := by
  obtain ⟨cexp', full, hc', hcase, hout⟩ :=
    recommend_ok_cases m c jobs top_n out hguard hjobs h
  rw [hc] at hc'
  cases hc'
  rcases hcase with ⟨hlen, hp2⟩ | ⟨hlen, hfull⟩
  · obtain ⟨extra, hout2, _⟩ := phase2Loop_ok_shape c cexp jobs _ full hp2
    refine ⟨full, extra, hout2, Or.inl ⟨hlen, hp2⟩, hout, ?_,
      fun l' hp hs => insertionSort_stable scoreGe _ l' hp hs⟩
    rw [hout]
    exact List.Pairwise.sublist (List.take_sublist _ _)
      (List.sorted_insertionSort scoreGe _)
  · subst hfull
    refine ⟨phase1Results m c cexp jobs top_n, [], (List.append_nil _).symm,
      Or.inr ⟨hlen, rfl⟩, hout, ?_,
      fun l' hp hs => insertionSort_stable scoreGe _ l' hp hs⟩
    rw [hout]
    exact List.Pairwise.sublist (List.take_sublist _ _)
      (List.sorted_insertionSort scoreGe _)

/-- Witness for C8 at a concrete call with one posting. -/
theorem C8_witness :
    ∃ full p2new,
      full = phase1Results okModelT cand0 0 [jobT] 5 ++ p2new ∧
      (((phase1Results okModelT cand0 0 [jobT] 5).length < 5 ∧
          phase2Loop cand0 0 [jobT] (phase1Results okModelT cand0 0 [jobT] 5) = .ok full) ∨
        (¬((phase1Results okModelT cand0 0 [jobT] 5).length < 5) ∧ p2new = [])) ∧
      [(⟨jobT, 100⟩ : MatchResult)] = (List.insertionSort scoreGe full).take 5 ∧
      [(⟨jobT, 100⟩ : MatchResult)].Pairwise scoreGe ∧
      (∀ l' : List MatchResult, l'.Pairwise scoreGe → l'.Sublist full →
        l'.Sublist (List.insertionSort scoreGe full)) :=
  C8_main okModelT cand0 [jobT] 5 [⟨jobT, 100⟩] 0 (by decide) (by decide) rfl rfl

/-- Rounding to two decimals yields exactly 100 on the half-open band
[99.995, 100.005). -/
theorem round2_eq_100_iff (q : ℚ) :
    round2 q = 100 ↔ (99995/1000 : ℚ) ≤ q ∧ q < 100005/1000 := by
  unfold round2
  rw [round_eq]
  constructor
  · intro h
    have h1 : ((⌊q * 100 + 1/2⌋ : ℤ) : ℚ) = 10000 := by
      rw [div_eq_iff (by norm_num : (100:ℚ) ≠ 0)] at h
      linarith
    have h2 : ⌊q * 100 + 1/2⌋ = 10000 := by exact_mod_cast h1
    obtain ⟨ha, hb⟩ := Int.floor_eq_iff.mp h2
    push_cast at ha hb
    constructor <;> linarith
  · rintro ⟨h1, h2⟩
    have h3 : ⌊q * 100 + 1/2⌋ = 10000 := by
      rw [Int.floor_eq_iff]
      constructor <;> push_cast <;> linarith
    rw [h3]
    norm_num

/-- C3 (amended): with experience fields converting to cexp and jexp and a
required-skills set of at most 9999 entries, the score equals 100 exactly
when the job's required-skills set is non-empty and fully covered by the
candidate's skills, the candidate meets the experience requirement, and
the locations agree after trimming and case folding.  (Non-emptiness is
forced by the counterexample: an empty requirement set is vacuously
covered but the skill block is skipped; the cardinality bound is forced by
two-decimal rounding, which rounds a 9999/10000 coverage up to 100.) -/
theorem C3_main (c : Candidate) (j : Job) (cexp jexp : ℚ)
    (hc : floatOfField 0 c.experience = some cexp)
    (hj : floatOfField 0 j.experience_required = some jexp)
    (hcard : (skillSet (j.required_skills.getD "")).card ≤ 9999) :
    calculate_match_score c j = .ok 100 ↔
      (skillSet (j.required_skills.getD "") ≠ ∅ ∧
       skillSet (j.required_skills.getD "") ⊆ skillSet (c.skills.getD "") ∧
       jexp ≤ cexp ∧
       locNorm c.location = locNorm j.location) := by
  rw [calculate_match_score_eq c j cexp jexp hc hj]
  set A := skillSet (c.skills.getD "") with hA
  set B := skillSet (j.required_skills.getD "") with hB
  rw [Except.ok.injEq]
  constructor
  · intro h100
    have hx := (round2_eq_100_iff _).mp h100
    obtain ⟨hs0, hs1⟩ := skillTerm_bounds A B
    have hloc : locNorm c.location = locNorm j.location := by
      by_contra hcon
      rw [if_neg hcon] at hx
      have hE_le : (if cexp ≥ jexp then (30:ℚ) else cexp / max jexp 1 * 15) ≤ 30 := by
        split
        next => exact le_rfl
        next hcon2 =>
          exact le_of_lt (lt_of_lt_of_le (expTerm_lt_15 cexp jexp hcon2) (by norm_num))
      obtain ⟨hx1, _⟩ := hx
      linarith
    rw [if_pos hloc] at hx
    have hexp : cexp ≥ jexp := by
      by_contra hcon
      rw [if_neg hcon] at hx
      have hlt := expTerm_lt_15 cexp jexp hcon
      obtain ⟨hx1, _⟩ := hx
      linarith
    rw [if_pos hexp] at hx
    have hABne : A ≠ ∅ ∧ B ≠ ∅ := by
      by_contra hcon
      rw [if_neg hcon] at hx
      obtain ⟨hx1, _⟩ := hx
      linarith
    rw [if_pos hABne] at hx
    obtain ⟨hx1, _⟩ := hx
    have hB0 : (0:ℚ) < (B.card : ℚ) := by
      exact_mod_cast Finset.card_pos.mpr (Finset.nonempty_iff_ne_empty.mpr hABne.2)
    have hkn : B.card ≤ (A ∩ B).card := by
      by_contra hcon
      push_neg at hcon
      have hk1 : ((A ∩ B).card : ℚ) ≤ (B.card : ℚ) - 1 := by
        have h5 : (A ∩ B).card + 1 ≤ B.card := hcon
        have h6 : (((A ∩ B).card + 1 : ℕ) : ℚ) ≤ ((B.card : ℕ) : ℚ) := by exact_mod_cast h5
        push_cast at h6
        linarith
      have hn9999 : (B.card : ℚ) ≤ 9999 := by exact_mod_cast hcard
      have hratio : ((A ∩ B).card : ℚ) / (B.card : ℚ) ≤ 1 - 1/(B.card : ℚ) := by
        rw [div_le_iff₀ hB0]
        have h7 : (1 - 1/(B.card : ℚ)) * (B.card : ℚ) = (B.card : ℚ) - 1 := by
          field_simp
        rw [h7]
        exact hk1
      have h1n : (1:ℚ)/9999 ≤ 1/(B.card : ℚ) :=
        one_div_le_one_div_of_le hB0 hn9999
      linarith
    have hsets : A ∩ B = B :=
      Finset.eq_of_subset_of_card_le Finset.inter_subset_right hkn
    exact ⟨hABne.2, Finset.inter_eq_right.mp hsets, hexp, hloc⟩
  · rintro ⟨hBne, hsub, hje, hloc⟩
    have hB0 : (0:ℚ) < (B.card : ℚ) := by
      exact_mod_cast Finset.card_pos.mpr (Finset.nonempty_iff_ne_empty.mpr hBne)
    have hAne : A ≠ ∅ := by
      obtain ⟨x, hx⟩ := Finset.nonempty_iff_ne_empty.mpr hBne
      exact Finset.nonempty_iff_ne_empty.mp ⟨x, hsub hx⟩
    rw [if_pos ⟨hAne, hBne⟩, if_pos hje, if_pos hloc, Finset.inter_eq_right.mpr hsub,
      div_self (ne_of_gt hB0)]
    rw [show (1:ℚ) * 50 + 30 + 20 = 100 by norm_num]
    exact (round2_eq_100_iff 100).mpr (by norm_num)

/-- Counterexample for C3: a job with no required_skills field has an empty
requirement set, vacuously covered by the candidate's skills; the
candidate meets the experience requirement and the locations match, yet
the score is 50 rather than 100, because the skill block contributes
nothing when the requirement set is empty. -/
theorem C3_cex :
    skillSet (c3job.required_skills.getD "") ⊆ skillSet (cand0.skills.getD "") ∧
    floatOfField 0 cand0.experience = some 0 ∧
    floatOfField 0 c3job.experience_required = some 0 ∧
    locNorm cand0.location = locNorm c3job.location ∧
    calculate_match_score cand0 c3job = .ok 50 ∧ (50:ℚ) ≠ 100 :=
  ⟨by decide, rfl, rfl, rfl, rfl, by norm_num⟩

/-- Witness for C3 at concrete records giving a full match. -/
theorem C3_witness :
    calculate_match_score cand0 jobT = .ok 100 ↔
      (skillSet (jobT.required_skills.getD "") ≠ ∅ ∧
       skillSet (jobT.required_skills.getD "") ⊆ skillSet (cand0.skills.getD "") ∧
       (0:ℚ) ≤ 0 ∧
       locNorm cand0.location = locNorm jobT.location) :=
  C3_main cand0 jobT 0 0 rfl rfl (by decide)

/-- C9 (amended): train_model fails with the no-training-data error exactly
on an empty corpus; a non-empty corpus trains successfully exactly when
the extracted job texts contribute at least one vocabulary term, and
otherwise fails with the empty-vocabulary error. -/
theorem C9_main (jobs : List Job) :
    (train_model jobs = .error .noJobs ↔ jobs = []) ∧
    ((∃ m, train_model jobs = .ok m) ↔
      (jobs ≠ [] ∧ vocabularyOf (trainTexts jobs) ≠ ∅)) := by
  unfold train_model
  by_cases h1 : jobs = []
  · simp [h1]
  · by_cases h2 : vocabularyOf (trainTexts jobs) = ∅
    · simp [h1, h2]
    · simp [h1, h2]

/-- Counterexample for C9: the one-element corpus [emptyJob] is non-empty,
yet training fails: the only job text is "0", which yields no token under
the two-word-character token pattern, so the vectorizer raises the
empty-vocabulary ValueError; the claim said a non-empty corpus always
trains. -/
theorem C9_cex :
    train_model [emptyJob] = .error .emptyVocab ∧ ([emptyJob] : List Job) ≠ [] :=
  ⟨rfl, by decide⟩

end JobRec
